import Mathlib

/-!
Verification of the srvfb frame pipeline: a shallow embedding of the PNG
encoder (internal/png, file fb.go part 2), the frame deduplication logic,
the raw-protocol header handling and the idle-aware listener of srvfb.go,
with theorems checking the repository's natural-language specification.

Bytes are modelled as natural numbers below 256; byte strings as `List Nat`.
Fixed-width machine arithmetic (uint32/uint16) is modelled on `Nat` with
explicit reduction modulo 2^32 / 2^16 where overflow can occur.
-/

namespace Srvfb

/-! ## Byte-level helpers -/

/-- Big-endian 4-byte encoding of a 32-bit value, as written by Go's
`binary.BigEndian.PutUint32` (the `uint32(...)` conversions in the source
truncate, hence the `% 256` on each extracted byte). -/
def be32 (n : Nat) : List Nat :=
  [n / 2 ^ 24 % 256, n / 2 ^ 16 % 256, n / 2 ^ 8 % 256, n % 256]

/-- Big-endian reassembly of a 4-byte list, as read by `binary.BigEndian.Uint32`. -/
def be32val (bs : List Nat) : Nat :=
  match bs with
  | [a, b, c, d] => a * 2 ^ 24 + b * 2 ^ 16 + c * 2 ^ 8 + d
  | _ => 0

/-- Big-endian 2-byte encoding (Go `binary.BigEndian.PutUint16`). -/
def be16 (n : Nat) : List Nat := [n / 2 ^ 8 % 256, n % 256]

/-- Big-endian reassembly of 2 bytes. -/
def be16val (bs : List Nat) : Nat :=
  match bs with
  | [a, b] => a * 2 ^ 8 + b
  | _ => 0

/-- Little-endian reassembly of 2 bytes (Go `binary.LittleEndian.Uint16`). -/
def le16val (bs : List Nat) : Nat :=
  match bs with
  | [a, b] => a + b * 2 ^ 8
  | _ => 0

/-- Reading exactly `k` bytes from a stream: `some (front, rest)` when enough
bytes are available, `none` otherwise (an io error / unexpected EOF). -/
def readN (k : Nat) (bs : List Nat) : Option (List Nat × List Nat) :=
  if k ≤ bs.length then some (bs.take k, bs.drop k) else none

theorem be32_length (n : Nat) : (be32 n).length = 4 := rfl

theorem be32val_be32 (n : Nat) : be32val (be32 n) = n % 2 ^ 32 := by
  simp only [be32, be32val]
  omega

theorem be32val_be32_of_lt {n : Nat} (h : n < 2 ^ 32) : be32val (be32 n) = n := by
  rw [be32val_be32, Nat.mod_eq_of_lt h]

theorem readN_exact {k : Nat} {xs ys : List Nat} (h : xs.length = k) :
    readN k (xs ++ ys) = some (xs, ys) := by
  subst h
  simp [readN, List.take_left, List.drop_left]

/-! ## Hash functions (Go standard library, as used by the source)

`hash/crc32` with the IEEE polynomial, `hash/adler32` and `hash/fnv`'s
32-bit FNV-1a. All three are pure folds over the input bytes; the encoder's
correctness never depends on their mathematical properties, only on writer
and reader computing the same function of the same bytes. -/

/-- One bit-round of the CRC-32 shift register (reflected IEEE polynomial). -/
def crc32Round (h : Nat) : Nat :=
  if h % 2 = 1 then h / 2 ^^^ 0xedb88320 else h / 2

/-- Eight CRC-32 bit-rounds, one input byte's worth. -/
def crc32Rounds : Nat → Nat → Nat
  | 0, h => h
  | k + 1, h => crc32Rounds k (crc32Round h)

/-- CRC-32 (IEEE) of a byte string, with the usual pre/post inversion; equal
to Go's `crc32.NewIEEE()` digest of the same bytes. -/
def crc32 (bs : List Nat) : Nat :=
  (bs.foldl (fun h b => crc32Rounds 8 (h ^^^ b % 256)) 0xffffffff) ^^^ 0xffffffff

/-- Adler-32 state update for one byte. -/
def adlerStep (s : Nat × Nat) (b : Nat) : Nat × Nat :=
  ((s.1 + b % 256) % 65521, (s.2 + (s.1 + b % 256)) % 65521)

/-- Adler-32 of a byte string (`adler32.New()` in Go): low word `s1` starts
at 1, high word `s2` at 0, digest is `s2 * 2^16 + s1`. -/
def adler32 (bs : List Nat) : Nat :=
  let s := bs.foldl adlerStep (1, 0)
  s.2 * 2 ^ 16 + s.1

/-- FNV-1a, 32 bits (`fnv.New32a()` in Go): xor the byte in, multiply by the
FNV prime, in uint32 arithmetic. -/
def fnv32a (bs : List Nat) : Nat :=
  bs.foldl (fun h b => (h ^^^ b % 256) * 16777619 % 2 ^ 32) 2166136261

theorem crc32Round_lt {h : Nat} (hh : h < 2 ^ 32) : crc32Round h < 2 ^ 32 := by
  unfold crc32Round
  split
  · exact Nat.xor_lt_two_pow (by omega) (by norm_num)
  · omega

theorem crc32Rounds_lt {k h : Nat} (hh : h < 2 ^ 32) : crc32Rounds k h < 2 ^ 32 := by
  induction k generalizing h with
  | zero => exact hh
  | succ k ih => exact ih (crc32Round_lt hh)

theorem crc32_fold_lt (bs : List Nat) : ∀ h0 : Nat, h0 < 2 ^ 32 →
    bs.foldl (fun h b => crc32Rounds 8 (h ^^^ b % 256)) h0 < 2 ^ 32 := by
  induction bs with
  | nil => exact fun h0 hh => hh
  | cons b bs ih =>
    intro h0 hh
    exact ih _ (crc32Rounds_lt (Nat.xor_lt_two_pow hh (by omega)))

theorem crc32_lt (bs : List Nat) : crc32 bs < 2 ^ 32 := by
  unfold crc32
  exact Nat.xor_lt_two_pow (crc32_fold_lt bs _ (by norm_num)) (by norm_num)

theorem adler32_lt (bs : List Nat) : adler32 bs < 2 ^ 32 := by
  unfold adler32
  have h : ∀ (init : Nat × Nat), init.1 < 65521 → init.2 < 65521 →
      (bs.foldl adlerStep init).1 < 65521 ∧ (bs.foldl adlerStep init).2 < 65521 := by
    induction bs with
    | nil => exact fun init h1 h2 => ⟨h1, h2⟩
    | cons b bs ih =>
      intro init h1 h2
      exact ih _ (Nat.mod_lt _ (by norm_num)) (Nat.mod_lt _ (by norm_num))
  have h2 := h (1, 0) (by norm_num) (by norm_num)
  simp only []
  omega

/-! ## Frame-change detector (`deduper`, srvfb.go)

The Go zero value `var dedup deduper` has `h1 = 0, h2 = 0` (the lazily
allocated `hash.Hash32` is re-`Reset` on every call and carries no state
across frames, so it is not part of the model). -/

structure Deduper where
  h1 : Nat
  h2 : Nat
deriving DecidableEq, Repr

/-- Zero value of the `deduper` struct, as declared in `serveRaw`/`serveVideo`. -/
def Deduper.fresh : Deduper := ⟨0, 0⟩

/-- Translation of `(*deduper).skip`: hash the frame with 32-bit FNV-1a;
answer true (and keep the state) when the hash equals both stored hashes,
otherwise shift the two-slot history and answer false. -/
def Deduper.skip (d : Deduper) (b : List Nat) : Bool × Deduper :=
  let h := fnv32a b
  if h = d.h1 ∧ h = d.h2 then (true, d)
  else (false, ⟨d.h2, h⟩)

/-- Results of feeding a sequence of frames to a detector. -/
def Deduper.skipRun (d : Deduper) : List (List Nat) → List Bool
  | [] => []
  | b :: bs =>
    let r := d.skip b
    r.1 :: r.2.skipRun bs

/-! ## Raw frame protocol (srvfb.go)

The writer side (`serveRaw`) emits one `rawHeader` record via
`binary.Write(part, binary.BigEndian, rhdr)`; the reader side
(`proxyconn.readHdr` / `proxyconn.readImage`) consumes multipart parts.
The MIME media-type parsing and multipart boundary splitting are Go
standard-library collaborators; the model receives each part as its
declared content type plus its byte content. -/

/-- Protocol revision constant (`const version = 1` in srvfb.go). -/
def protocolVersion : Nat := 1

structure RawHeader where
  version : Nat
  bitsPerPixel : Nat
  reserved : Nat
  width : Nat
  height : Nat
deriving DecidableEq, Repr

/-- Big-endian serialization of `rawHeader` as produced by `binary.Write`
on the struct `{Version uint8, BitsPerPixel uint8, _ uint16, Width uint32,
Height uint32}` (fixed-width fields truncate). -/
def encodeRawHeader (h : RawHeader) : List Nat :=
  [h.version % 256, h.bitsPerPixel % 256] ++ be16 h.reserved ++ be32 h.width ++ be32 h.height

/-- Reading a `rawHeader` back with `binary.Read` (12 bytes, big-endian);
`none` models the read error on a short stream. Bytes after the record
remain unread and are ignored here. -/
def decodeRawHeader : List Nat → Option RawHeader
  | v :: bpp :: r1 :: r0 :: w3 :: w2 :: w1 :: w0 :: h3 :: h2 :: h1 :: h0 :: _ =>
    some ⟨v, bpp, be16val [r1, r0], be32val [w3, w2, w1, w0], be32val [h3, h2, h1, h0]⟩
  | _ => none

/-- Failure kinds of the proxy-side reader (`proxyconn`). `badVersion`
carries the number the Go error message formats: the source interpolates
`hdr.BitsPerPixel` into the "incompatible version %d" message (a formatting
slip), but the error's identity is still the version mismatch. -/
inductive ProxyErr where
  | badPartType (ct : String)
  | ioErr
  | badVersion (printed : Nat)
  | badDepth (bpp : Nat)
  | shortFrame
deriving DecidableEq, Repr

/-- Translation of the part-validation logic of `proxyconn.readHdr`: check
the part's content type, read one `rawHeader`, reject a wrong protocol
version, then reject a depth other than 16; on success record width and
height for the streaming phase. -/
def readHdr (ct : String) (body : List Nat) : Except ProxyErr (Nat × Nat) :=
  if ct ≠ "binary/octet-stream" then .error (.badPartType ct)
  else match decodeRawHeader body with
    | none => .error .ioErr
    | some hdr =>
      if hdr.version ≠ protocolVersion then .error (.badVersion hdr.bitsPerPixel)
      else if hdr.bitsPerPixel ≠ 16 then .error (.badDepth hdr.bitsPerPixel)
      else .ok (hdr.width, hdr.height)

/-- Translation of `proxyconn.readImage` on one frame part: the destination
buffer is (re)sized to `width*height*2` bytes, the part's content type is
validated, and `io.ReadFull` either fills the buffer completely or fails
(`ErrUnexpectedEOF`/`EOF` on a short part — modelled as `shortFrame`). -/
def readImage (width height : Nat) (ct : String) (body : List Nat) :
    Except ProxyErr (List Nat) :=
  if ct ≠ "binary/octet-stream" then .error (.badPartType ct)
  else if body.length < width * height * 2 then .error .shortFrame
  else .ok (body.take (width * height * 2))

theorem decode_encode_rawHeader (h : RawHeader) :
    decodeRawHeader (encodeRawHeader h) =
      some ⟨h.version % 256, h.bitsPerPixel % 256, h.reserved % 2 ^ 16,
            h.width % 2 ^ 32, h.height % 2 ^ 32⟩ := by
  simp only [encodeRawHeader, be16, be32, List.cons_append, List.nil_append,
    decodeRawHeader, be16val, be32val, Option.some.injEq, RawHeader.mk.injEq]
  refine ⟨trivial, trivial, ?_, ?_, ?_⟩ <;> omega

/-! ## Idle-aware listener (srvfb.go)

`listener.Accept` and the close hook of the wrapped `conn` manipulate an
atomic `uint32` active-connection counter and the TCP listener's deadline.
The model is the sequential state transformer each call performs; `active`
is the counter value, `deadlineSet` whether an idle deadline is armed. -/

structure LState where
  active : Nat
  deadlineSet : Bool
deriving DecidableEq, Repr

/-- Outcome of the wrapped `TCPListener.Accept` call. -/
inductive RawAccept where
  | conn
  | timeout
  | failure (e : Nat)
deriving DecidableEq, Repr

/-- Error results of `listener.Accept`: the distinguished `errIdle`, or an
underlying accept error passed through unchanged (opaque code). -/
inductive AcceptErr where
  | idle
  | failure (e : Nat)
deriving DecidableEq, Repr

/-- Translation of `(*listener).Accept`: with zero active connections an
idle deadline is armed before blocking; a successful accept increments the
counter (uint32) and clears the deadline; an error with `Timeout() == true`
becomes `errIdle`; any other error is returned unchanged. -/
def acceptStep (l : LState) (r : RawAccept) : Except AcceptErr Unit × LState :=
  let l1 := if l.active = 0 then { l with deadlineSet := true } else l
  match r with
  | .conn => (.ok (), { active := (l1.active + 1) % 2 ^ 32, deadlineSet := false })
  | .timeout => (.error .idle, l1)
  | .failure e => (.error (.failure e), l1)

/-- Translation of `run`'s treatment of the error returned by `http.Serve`:
`errIdle` is logged and replaced by `nil` (clean shutdown, `none`); any
other error is returned (`some`). -/
def runResult (e : AcceptErr) : Option Nat :=
  match e with
  | .idle => none
  | .failure e => some e

/-- Per-connection `sync.Once` state of the wrapped `conn`'s close hook. -/
structure ConnOnce where
  done : Bool
deriving DecidableEq, Repr

/-- Translation of `(*conn).Close`'s bookkeeping: under a `sync.Once`,
decrement the active counter (`atomic.AddUint32(&active, ^uint32(0))`,
i.e. adding `2^32 - 1` modulo `2^32`) and, when the decremented value is
zero, reinstate the idle deadline. Closing the underlying socket has no
effect on this state and is not modelled. -/
def closeStep : ConnOnce × LState → ConnOnce × LState
  | (c, l) =>
    if c.done then (c, l)
    else
      let a := (l.active + (2 ^ 32 - 1)) % 2 ^ 32
      (⟨true⟩, { active := a, deadlineSet := if a = 0 then true else l.deadlineSet })

/-- Invoking the close hook `n` times in sequence. -/
def closeN : Nat → ConnOnce × LState → ConnOnce × LState
  | 0, s => s
  | n + 1, s => closeN n (closeStep s)

theorem closeStep_done (l : LState) : closeStep (⟨true⟩, l) = (⟨true⟩, l) := rfl

theorem closeN_done (n : Nat) (l : LState) : closeN n (⟨true⟩, l) = (⟨true⟩, l) := by
  induction n with
  | zero => rfl
  | succ n ih => simpa [closeN, closeStep_done] using ih

/-! ## PNG encoder (internal/png, `WritePNG` and helpers)

The encoder works on an `image.Gray16`; the claims' Raster is such an image
whose rectangle sits at the origin, so `Bounds().Dx()/Dy()` are `width` and
`height`. Recursive Go loops are embedded with a fuel argument bounded by
the input length (each iteration consumes at least one byte, so the bound
is never exhausted on the reachable inputs; exhaustion corresponds to the
original's divergence). -/

structure Raster where
  width : Nat
  height : Nat
  stride : Nat
  pix : List Nat
deriving DecidableEq, Repr

/-- Translation of `deflateLen`. Go's `(n-1)/0xffff` is truncated `int`
division, which yields 0 at `n = 0`, exactly as Nat's saturating `n - 1`
does here, so the two agree on every reachable (non-negative) argument. -/
def deflateLen (n : Nat) : Nat :=
  let nblocks := 1 + (n - 1) / 0xffff
  n + (nblocks + 1) * 5

/-- Modelled from the spec: the claimed closed form
`deflateLen(n) = n + (1 + ceil(n/65535)) * 5`, with `ceil(n/65535)` written
as `(n + 65534) / 65535` on naturals. Kept separate from the source's
`deflateLen` so the two can be compared. -/
def deflateLenSpec (n : Nat) : Nat := n + (1 + (n + 65534) / 65535) * 5

/-- State of `flateWriter`: remaining capacity of the currently open stored
block, and input bytes still anticipated beyond it. -/
structure FlateState where
  block : Nat
  total : Nat
deriving DecidableEq, Repr

/-- The 5-byte stored-block header written when a block is opened: marker
byte 0 (not final, block type 00), little-endian `uint16` length, then its
bitwise complement `^uint16(n) = 65535 - n % 2^16`. -/
def hdr5 (n : Nat) : List Nat :=
  [0, n % 256, n % 65536 / 256, (65535 - n % 65536) % 256, (65535 - n % 65536) / 256]

/-- Translation of `(*flateWriter).Write` with an always-succeeding sink,
returning the bytes handed to the underlying writer plus the new state.
The package-level `total` debug counter does not influence the output and
is omitted. Writing more than the anticipated total makes the Go original
loop forever emitting empty block headers; the fuel (strictly more than
`p.length` at the top-level call) only runs out in that unreachable case. -/
def flateWriteF : Nat → FlateState → List Nat → List Nat × FlateState
  | 0, s, _ => ([], s)
  | fuel + 1, s, p =>
    let hs :=
      if s.block = 0 then
        let blk := min 0xffff s.total
        (hdr5 blk, FlateState.mk blk (s.total - blk))
      else ([], s)
    if p.length ≤ hs.2.block then
      (hs.1 ++ p, ⟨hs.2.block - p.length, hs.2.total⟩)
    else
      let x := hs.2.block
      let r := flateWriteF fuel ⟨0, hs.2.total⟩ (p.drop x)
      (hs.1 ++ p.take x ++ r.1, r.2)

/-- One `Write` call on the flate writer. -/
def flateWrite (s : FlateState) (p : List Nat) : List Nat × FlateState :=
  flateWriteF (p.length + 1) s p

/-- A sequence of `Write` calls on the flate writer. -/
def flateRun (s : FlateState) : List (List Nat) → List Nat × FlateState
  | [] => ([], s)
  | p :: ps =>
    let r := flateWrite s p
    let r2 := flateRun r.2 ps
    (r.1 ++ r2.1, r2.2)

/-- Bytes written by `(*flateWriter).Close`: the final, empty stored block. -/
def flateCloseBytes : List Nat := [1, 0, 0, 0xff, 0xff]

/-- Guard of `Close`'s `panic("wrote less than anticipated")`: closing is
legal only when both the anticipated total and the open block are used up. -/
def flateCloseOk (s : FlateState) : Bool := s.total = 0 && s.block = 0

/-- Write calls issued by `writeIDAT`'s scanline loop
`for i := 0; i < len(im.Pix); i += im.Stride`: per iteration one filter
byte `[]byte{0}` and the slice `im.Pix[i : i+im.Stride]`. A zero stride
would loop forever in Go (unreachable: device rasters have positive
stride); slicing stays in bounds because `len(pix) = stride * height`. -/
def contentWritesF : Nat → Nat → List Nat → List (List Nat)
  | 0, _, _ => []
  | _, _, [] => []
  | fuel + 1, stride, pix =>
    if stride = 0 then []
    else [0] :: pix.take stride :: contentWritesF fuel stride (pix.drop stride)

/-- The full write-call list of the scanline loop. -/
def contentWrites (stride : Nat) (pix : List Nat) : List (List Nat) :=
  contentWritesF (pix.length + 1) stride pix

/-- PNG chunk type tags used by the encoder (ASCII). -/
def tagIHDR : List Nat := [0x49, 0x48, 0x44, 0x52]

def tagIDAT : List Nat := [0x49, 0x44, 0x41, 0x54]

def tagIEND : List Nat := [0x49, 0x45, 0x4e, 0x44]

/-- The 8-byte PNG signature `"\x89PNG\r\n\x1a\n"`. -/
def pngSig : List Nat := [0x89, 0x50, 0x4e, 0x47, 0x0d, 0x0a, 0x1a, 0x0a]

/-- Translation of `writeChunk`: big-endian payload length, 4-byte type
tag, payload, CRC-32 over tag plus payload. (The `len(typ) != 4` panic
cannot fire: all three call sites pass 4-byte constants.) -/
def writeChunk (b : List Nat) (typ : List Nat) : List Nat :=
  be32 b.length ++ typ ++ b ++ be32 (crc32 (typ ++ b))

/-- IHDR payload built by `WritePNG`: width, height, bit depth 16,
grayscale, deflate compression, filter method 0, no interlacing. -/
def ihdrPayload (im : Raster) : List Nat :=
  be32 im.width ++ be32 im.height ++ [16, 0, 0, 0, 0]

/-- Payload of the IDAT record as assembled by `writeIDAT` (everything the
declared length counts): 2-byte zlib header `78 01`, the stored-block
deflate stream produced by the scanline loop through the flate writer, the
final empty block from `Close`, and the big-endian Adler-32 of the bytes
fed through `zlibContent` (filter bytes and scanlines). -/
def idatPayload (im : Raster) : List Nat :=
  let contentLen := im.pix.length + im.height
  let ws := contentWrites im.stride im.pix
  [0x78, 0x01] ++ (flateRun ⟨0, contentLen⟩ ws).1 ++ flateCloseBytes
    ++ be32 (adler32 ws.flatten)

/-- Translation of `writeIDAT`: the 4-byte declared length
`6 + uint32(deflateLen(len(pix) + height))`, the `IDAT` tag, the payload,
and the CRC-32 over tag plus payload (`chunkSum` hashes exactly the bytes
sent through `chunkContent`). -/
def writeIDAT (im : Raster) : List Nat :=
  let contentLen := im.pix.length + im.height
  let dflen := deflateLen contentLen % 2 ^ 32
  be32 ((6 + dflen) % 2 ^ 32) ++ tagIDAT ++ idatPayload im
    ++ be32 (crc32 (tagIDAT ++ idatPayload im))

/-- Translation of `WritePNG` (with every sink write succeeding, as with
the `bytes.Buffer` used by the package's own test): signature, IHDR chunk,
IDAT record, IEND chunk. -/
def writePNG (im : Raster) : List Nat :=
  pngSig ++ writeChunk (ihdrPayload im) tagIHDR ++ writeIDAT im ++ writeChunk [] tagIEND

/-- Go panic condition of the encode call: `flateWriter.Close` panics with
"wrote less than anticipated" unless the scanline loop pushed exactly the
anticipated `len(pix) + height` bytes through the flate writer. -/
def writePNGPanics (im : Raster) : Bool :=
  ! flateCloseOk (flateRun ⟨0, im.pix.length + im.height⟩
      (contentWrites im.stride im.pix)).2

/-! ## Canonical form of the flate writer's output

The writer's stored-block chunking depends only on the concatenation of
the written byte strings and on the anticipated total, not on how the
writes are sliced; `storedBlocks` is that canonical chunking and the
simulation lemmas below prove the writer produces exactly it. -/

/-- Canonical stored-block stream for `total` content bytes drawn from `c`:
greedy blocks of `min 65535 total` bytes, each preceded by its header. -/
def storedBlocksF : Nat → Nat → List Nat → List Nat
  | 0, _, _ => []
  | fuel + 1, total, c =>
    if total = 0 then []
    else
      let blk := min 0xffff total
      hdr5 blk ++ c.take blk ++ storedBlocksF fuel (total - blk) (c.drop blk)

def storedBlocks (total : Nat) (c : List Nat) : List Nat := storedBlocksF total total c

theorem storedBlocksF_irrel : ∀ f1 f2 total c, total ≤ f1 → total ≤ f2 →
    storedBlocksF f1 total c = storedBlocksF f2 total c := by
  intro f1
  induction f1 with
  | zero =>
    intro f2 total c h1 _
    have ht : total = 0 := by omega
    subst ht
    cases f2 <;> simp [storedBlocksF]
  | succ f1 ih =>
    intro f2 total c h1 h2
    cases f2 with
    | zero =>
      have ht : total = 0 := by omega
      subst ht
      simp [storedBlocksF]
    | succ f2 =>
      simp only [storedBlocksF]
      by_cases ht : total = 0
      · simp [ht]
      · simp only [ht, if_false]
        rw [ih f2 (total - min 0xffff total) _ (by omega) (by omega)]

theorem storedBlocks_zero (c : List Nat) : storedBlocks 0 c = [] := rfl

theorem storedBlocks_pos (total : Nat) (c : List Nat) (h : 1 ≤ total) :
    storedBlocks total c =
      hdr5 (min 0xffff total) ++ c.take (min 0xffff total) ++
        storedBlocks (total - min 0xffff total) (c.drop (min 0xffff total)) := by
  unfold storedBlocks
  obtain ⟨f, rfl⟩ : ∃ f, total = f + 1 := ⟨total - 1, by omega⟩
  simp only [storedBlocksF]
  rw [if_neg (by omega)]
  rw [storedBlocksF_irrel f (f + 1 - min 0xffff (f + 1)) _ _ (by omega) (by omega)]

/-- Remaining canonical output from writer state `(b, t)` when the bytes
still to be written are `c`: the tail of the open block, then the canonical
blocks of the remaining total. -/
def canon (b t : Nat) (c : List Nat) : List Nat :=
  c.take b ++ storedBlocks t (c.drop b)

theorem canon_zero (t : Nat) (c : List Nat) : canon 0 t c = storedBlocks t c := by
  simp [canon]

theorem canon_empty : canon 0 0 [] = [] := rfl

theorem flateWriteF_succ_open (fuel t : Nat) (p : List Nat) :
    flateWriteF (fuel + 1) ⟨0, t⟩ p =
      if p.length ≤ min 0xffff t then
        (hdr5 (min 0xffff t) ++ p, ⟨min 0xffff t - p.length, t - min 0xffff t⟩)
      else
        (hdr5 (min 0xffff t) ++ p.take (min 0xffff t)
            ++ (flateWriteF fuel ⟨0, t - min 0xffff t⟩ (p.drop (min 0xffff t))).1,
          (flateWriteF fuel ⟨0, t - min 0xffff t⟩ (p.drop (min 0xffff t))).2) := by
  simp [flateWriteF]

theorem flateWriteF_succ_inblock (fuel b t : Nat) (p : List Nat) (hb : b ≠ 0) :
    flateWriteF (fuel + 1) ⟨b, t⟩ p =
      if p.length ≤ b then (p, ⟨b - p.length, t⟩)
      else
        (p.take b ++ (flateWriteF fuel ⟨0, t⟩ (p.drop b)).1,
          (flateWriteF fuel ⟨0, t⟩ (p.drop b)).2) := by
  simp [flateWriteF, hb]

theorem flateWriteF_canon :
    ∀ (fuel : Nat) (p : List Nat) (b t : Nat) (c : List Nat),
      p.length < fuel → p ≠ [] → p.length + c.length = b + t →
      (flateWriteF fuel ⟨b, t⟩ p).1
          ++ canon (flateWriteF fuel ⟨b, t⟩ p).2.block (flateWriteF fuel ⟨b, t⟩ p).2.total c
        = canon b t (p ++ c) ∧
      (flateWriteF fuel ⟨b, t⟩ p).2.block + (flateWriteF fuel ⟨b, t⟩ p).2.total = c.length := by
  intro fuel
  induction fuel with
  | zero => intro p b t c h _ _; omega
  | succ fuel ih =>
    intro p b t c hf hp hlen
    have hp1 : 1 ≤ p.length := List.length_pos.mpr hp
    by_cases hb : b = 0
    · subst hb
      rw [flateWriteF_succ_open]
      have ht1 : 1 ≤ t := by omega
      have hblk1 : 1 ≤ min 0xffff t := by omega
      have hblkt : min 0xffff t ≤ t := by omega
      by_cases hle : p.length ≤ min 0xffff t
      · rw [if_pos hle]
        refine ⟨?_, by simp only []; omega⟩
        conv_rhs => rw [canon_zero, storedBlocks_pos t _ ht1,
          List.take_append_eq_append_take, List.take_of_length_le hle,
          List.drop_append_eq_append_drop, List.drop_of_length_le hle]
        simp [canon, List.append_assoc]
      · rw [if_neg hle]
        have hlt : min 0xffff t < p.length := by omega
        have ihr := ih (p.drop (min 0xffff t)) 0 (t - min 0xffff t) c
          (by simp only [List.length_drop]; omega)
          (by simp only [ne_eq, List.drop_eq_nil_iff]; omega)
          (by simp only [List.length_drop]; omega)
        refine ⟨?_, by simpa using ihr.2⟩
        conv_rhs => rw [canon_zero, storedBlocks_pos t _ ht1,
          List.take_append_of_le_length (by omega),
          List.drop_append_of_le_length (by omega),
          ← canon_zero (t - min 0xffff t) (p.drop (min 0xffff t) ++ c), ← ihr.1]
        simp [List.append_assoc]
    · rw [flateWriteF_succ_inblock fuel b t p hb]
      by_cases hle : p.length ≤ b
      · rw [if_pos hle]
        refine ⟨?_, by simp only []; omega⟩
        conv_rhs => rw [canon,
          List.take_append_eq_append_take, List.take_of_length_le hle,
          List.drop_append_eq_append_drop, List.drop_of_length_le hle]
        simp [canon, List.append_assoc]
      · rw [if_neg hle]
        have hb1 : 1 ≤ b := by omega
        have hlt : b < p.length := by omega
        have ihr := ih (p.drop b) 0 t c
          (by simp only [List.length_drop]; omega)
          (by simp only [ne_eq, List.drop_eq_nil_iff]; omega)
          (by simp only [List.length_drop]; omega)
        refine ⟨?_, by simpa using ihr.2⟩
        conv_rhs => rw [canon,
          List.take_append_of_le_length (by omega),
          List.drop_append_of_le_length (by omega),
          ← canon_zero t (p.drop b ++ c), ← ihr.1]
        simp [List.append_assoc]

theorem flateWrite_canon (p : List Nat) (s : FlateState) (c : List Nat)
    (hp : p ≠ []) (hlen : p.length + c.length = s.block + s.total) :
    (flateWrite s p).1
        ++ canon (flateWrite s p).2.block (flateWrite s p).2.total c
      = canon s.block s.total (p ++ c) ∧
    (flateWrite s p).2.block + (flateWrite s p).2.total = c.length :=
  flateWriteF_canon (p.length + 1) p s.block s.total c (by omega) hp hlen

theorem flateRun_canon :
    ∀ (ws : List (List Nat)) (s : FlateState) (c : List Nat),
      (∀ w ∈ ws, w ≠ []) → ws.flatten.length + c.length = s.block + s.total →
      (flateRun s ws).1
          ++ canon (flateRun s ws).2.block (flateRun s ws).2.total c
        = canon s.block s.total (ws.flatten ++ c) ∧
      (flateRun s ws).2.block + (flateRun s ws).2.total = c.length := by
  intro ws
  induction ws with
  | nil =>
    intro s c _ hlen
    rw [List.flatten_nil, List.length_nil] at hlen
    refine ⟨by simp [flateRun], ?_⟩
    simp only [flateRun]
    omega
  | cons w ws ih =>
    intro s c hw hlen
    rw [List.flatten_cons, List.length_append] at hlen
    have h1 := flateWrite_canon w s (ws.flatten ++ c) (hw w (by simp))
      (by rw [List.length_append]; omega)
    have h1s := h1.2
    rw [List.length_append] at h1s
    have h2 := ih (flateWrite s w).2 c (fun x hx => hw x (by simp [hx]))
      (by omega)
    simp only [flateRun]
    refine ⟨?_, h2.2⟩
    rw [List.append_assoc, h2.1, h1.1, List.flatten_cons, List.append_assoc]

/-- The scanline loop's writes, started in state `(0, n)` with `n` the total
number of bytes they deliver, produce exactly the canonical stored-block
stream and leave the writer in the fully-drained state — so `Close` appends
its final block without panicking. -/
theorem flateRun_complete (ws : List (List Nat)) (n : Nat)
    (hw : ∀ w ∈ ws, w ≠ []) (hn : ws.flatten.length = n) :
    flateRun ⟨0, n⟩ ws = (storedBlocks n ws.flatten, ⟨0, 0⟩) := by
  have h := flateRun_canon ws ⟨0, n⟩ []
    hw (by rw [List.length_nil, hn]; show n + 0 = 0 + n; omega)
  have hs := h.2
  rw [List.length_nil] at hs
  have hb : (flateRun ⟨0, n⟩ ws).2.block = 0 := by omega
  have ht : (flateRun ⟨0, n⟩ ws).2.total = 0 := by omega
  have h1 := h.1
  rw [hb, ht, canon_empty, List.append_nil, canon_zero, List.append_nil] at h1
  have hst : (flateRun ⟨0, n⟩ ws).2 = FlateState.mk 0 0 := by
    rw [show (flateRun ⟨0, n⟩ ws).2
        = FlateState.mk (flateRun ⟨0, n⟩ ws).2.block (flateRun ⟨0, n⟩ ws).2.total from rfl,
      hb, ht]
  rw [Prod.ext_iff]
  exact ⟨h1, hst⟩

/-! ## Length bookkeeping for the IDAT record (claim about `deflateLen`) -/

theorem deflateLen_eq_spec (n : Nat) (h : 1 ≤ n) : deflateLen n = deflateLenSpec n := by
  simp only [deflateLen, deflateLenSpec]
  omega

theorem storedBlocksF_length :
    ∀ (fuel n : Nat) (c : List Nat), n ≤ fuel → n ≤ c.length →
      (storedBlocksF fuel n c).length = n + 5 * ((n + 65534) / 65535) := by
  intro fuel
  induction fuel with
  | zero =>
    intro n c h1 _
    have hn : n = 0 := by omega
    subst hn
    simp [storedBlocksF]
  | succ fuel ih =>
    intro n c h1 h2
    simp only [storedBlocksF]
    by_cases hn : n = 0
    · simp [hn]
    · rw [if_neg hn]
      have hblk1 : 1 ≤ min 0xffff n := by omega
      have hble : min 0xffff n ≤ n := by omega
      rw [List.length_append, List.length_append,
        ih (n - min 0xffff n) _ (by omega) (by simp only [List.length_drop]; omega)]
      have hh : (hdr5 (min 0xffff n)).length = 5 := rfl
      have htk : (c.take (min 0xffff n)).length = min 0xffff n := by
        simp only [List.length_take]
        omega
      rw [hh, htk]
      omega

theorem storedBlocks_length (n : Nat) (c : List Nat) (h : n ≤ c.length) :
    (storedBlocks n c).length = n + 5 * ((n + 65534) / 65535) :=
  storedBlocksF_length n n c le_rfl h

theorem contentWritesF_nil (fuel stride : Nat) : contentWritesF fuel stride [] = [] := by
  cases fuel <;> rfl

theorem contentWritesF_cons (fuel stride : Nat) (a : Nat) (l : List Nat) (hs : stride ≠ 0) :
    contentWritesF (fuel + 1) stride (a :: l) =
      [0] :: (a :: l).take stride :: contentWritesF fuel stride ((a :: l).drop stride) := by
  simp [contentWritesF, hs]

theorem contentWritesF_ne :
    ∀ (fuel stride : Nat) (pix : List Nat), 1 ≤ stride →
      ∀ w ∈ contentWritesF fuel stride pix, w ≠ [] := by
  intro fuel
  induction fuel with
  | zero => intro stride pix _ w hw; simp [contentWritesF] at hw
  | succ fuel ih =>
    intro stride pix hs w hw
    match pix with
    | [] => rw [contentWritesF_nil] at hw; simp at hw
    | a :: l =>
      rw [contentWritesF_cons fuel stride a l (by omega)] at hw
      simp only [List.mem_cons] at hw
      rcases hw with h | h | h
      · simp [h]
      · subst h
        match stride, hs with
        | s + 1, _ => simp
      · exact ih stride _ hs w h

theorem contentWrites_ne (stride : Nat) (pix : List Nat) (hs : 1 ≤ stride) :
    ∀ w ∈ contentWrites stride pix, w ≠ [] :=
  contentWritesF_ne (pix.length + 1) stride pix hs

theorem contentWritesF_flatten_length :
    ∀ (k fuel stride : Nat) (pix : List Nat), 1 ≤ stride → pix.length = stride * k →
      pix.length < fuel →
      (contentWritesF fuel stride pix).flatten.length = pix.length + k := by
  intro k
  induction k with
  | zero =>
    intro fuel stride pix _ hlen _
    have : pix = [] := List.eq_nil_of_length_eq_zero (by omega)
    subst this
    rw [contentWritesF_nil]
    rfl
  | succ k ih =>
    intro fuel stride pix hs hlen hf
    have hp : pix ≠ [] := by
      intro h
      subst h
      simp at hlen
      omega
    match pix, hp with
    | a :: l, _ =>
      match fuel, hf with
      | f + 1, hf =>
        rw [contentWritesF_cons f stride a l (by omega)]
        rw [List.flatten_cons, List.flatten_cons, List.length_append, List.length_append,
          ih f stride ((a :: l).drop stride) hs
            (by simp only [List.length_drop]; rw [hlen]; ring_nf; omega)
            (by simp only [List.length_drop]; simp at hf ⊢; omega)]
        have htk : ((a :: l).take stride).length = stride := by
          simp only [List.length_take]
          have : stride ≤ (a :: l).length := by rw [hlen]; nlinarith
          omega
        rw [htk]
        simp only [List.length_drop, List.length_cons]
        have : stride ≤ (a :: l).length := by rw [hlen]; nlinarith
        simp at this ⊢
        omega

theorem contentWrites_flatten_length (stride k : Nat) (pix : List Nat)
    (hs : 1 ≤ stride) (hlen : pix.length = stride * k) :
    (contentWrites stride pix).flatten.length = pix.length + k :=
  contentWritesF_flatten_length k (pix.length + 1) stride pix hs hlen (by omega)

/-- Helper: the flate stream inside the IDAT record is exactly the canonical
stored-block chunking of the filter-byte-plus-scanline stream. -/
theorem idat_flateRun (im : Raster) (hs : 1 ≤ im.stride)
    (hlen : im.pix.length = im.stride * im.height) :
    flateRun ⟨0, im.pix.length + im.height⟩ (contentWrites im.stride im.pix)
      = (storedBlocks (im.pix.length + im.height)
          (contentWrites im.stride im.pix).flatten, ⟨0, 0⟩) :=
  flateRun_complete _ _ (contentWrites_ne im.stride im.pix hs)
    (contentWrites_flatten_length im.stride im.height im.pix hs hlen)

theorem idatPayload_length (im : Raster) (hs : 1 ≤ im.stride) (hH : 1 ≤ im.height)
    (hlen : im.pix.length = im.stride * im.height) :
    (idatPayload im).length = 6 + deflateLen (im.pix.length + im.height) := by
  simp only [idatPayload]
  rw [idat_flateRun im hs hlen]
  simp only [List.length_append]
  rw [storedBlocks_length _ _
    (by rw [contentWrites_flatten_length im.stride im.height im.pix hs hlen])]
  simp only [deflateLen, flateCloseBytes, be32, List.length_cons, List.length_nil]
  omega

theorem writeIDAT_declared (im : Raster)
    (hfit : 6 + deflateLen (im.pix.length + im.height) < 2 ^ 32) :
    be32val ((writeIDAT im).take 4) = 6 + deflateLen (im.pix.length + im.height) := by
  unfold writeIDAT
  rw [List.append_assoc, List.append_assoc,
    List.take_left' (be32_length _),
    be32val_be32]
  omega

/-! ## PNG decoding

Modelled from the spec: the round-trip property compares the encoder
against "a standard PNG decoder" (the repository's own test decodes with
Go's `image/png`, which is not part of this repository). The decoder below
follows the PNG/zlib/deflate standards on the profile this encoder emits —
8-byte signature; chunks framed as length, type, payload, CRC-32 over type
plus payload (verified); a 16-bit grayscale IHDR; IDAT payloads
concatenated into a zlib stream (header checked, Adler-32 verified,
stream must end after the checksum); stored deflate blocks (length and
complement verified, final-block flag honoured); one filter byte per
scanline; and exactly `height` scanlines of `2*width` bytes ("too much
pixel data" otherwise). Features a full decoder accepts but this encoder
never emits — compressed block types 01/10, filter types 1-4, ancillary
chunks, depths other than grayscale-16 — are rejected as unsupported. -/

/-- One chunk: `some (type, payload, rest)` if the framing and CRC are
valid. -/
def parseChunk (bs : List Nat) : Option (List Nat × List Nat × List Nat) :=
  match readN 4 bs with
  | none => none
  | some (lenB, r1) =>
    match readN 4 r1 with
    | none => none
    | some (typ, r2) =>
      match readN (be32val lenB) r2 with
      | none => none
      | some (payload, r3) =>
        match readN 4 r3 with
        | none => none
        | some (crcB, r4) =>
          if be32val crcB = crc32 (typ ++ payload) then some (typ, payload, r4) else none

/-- Concatenated IDAT payloads of the chunks up to the IEND chunk. -/
def parseIDATsF : Nat → List Nat → Option (List Nat)
  | 0, _ => none
  | fuel + 1, bs =>
    match parseChunk bs with
    | none => none
    | some (typ, payload, rest) =>
      if typ = tagIEND then some []
      else if typ = tagIDAT then (parseIDATsF fuel rest).map (fun d => payload ++ d)
      else none

def parseIDATs (bs : List Nat) : Option (List Nat) := parseIDATsF (bs.length + 1) bs

/-- Stored-block deflate stream: `some (data, rest)` where `rest` is what
follows the final block. Block types other than 00 (stored) are not
modelled (`none`); the padding bits 3-7 of the block-header byte are
ignored, as the standard requires for stored blocks. -/
def inflateF : Nat → List Nat → Option (List Nat × List Nat)
  | 0, _ => none
  | fuel + 1, bs =>
    match bs with
    | [] => none
    | b0 :: r0 =>
      if b0 / 2 % 4 ≠ 0 then none
      else
        match readN 2 r0 with
        | none => none
        | some (lenB, r1) =>
          match readN 2 r1 with
          | none => none
          | some (nlenB, r2) =>
            if le16val nlenB ≠ 65535 - le16val lenB then none
            else
              match readN (le16val lenB) r2 with
              | none => none
              | some (dat, r3) =>
                if b0 % 2 = 1 then some (dat, r3)
                else
                  match inflateF fuel r3 with
                  | none => none
                  | some (d, rr) => some (dat ++ d, rr)

def inflate (bs : List Nat) : Option (List Nat × List Nat) := inflateF (bs.length + 1) bs

/-- Zlib envelope: method/window and check bits of the 2-byte header, no
preset dictionary, deflate body, Adler-32 trailer, nothing after it. -/
def zlibDecode (bs : List Nat) : Option (List Nat) :=
  match bs with
  | cmf :: flg :: rest =>
    if cmf % 16 ≠ 8 ∨ (cmf * 256 + flg) % 31 ≠ 0 ∨ flg / 32 % 2 ≠ 0 then none
    else
      match inflate rest with
      | none => none
      | some (raw, tail) =>
        match readN 4 tail with
        | none => none
        | some (adlerB, tail2) =>
          if be32val adlerB = adler32 raw ∧ tail2 = [] then some raw else none
  | _ => none

/-- Reverse the scanline serialization: `h` scanlines, each one filter byte
(only type 0, the sole type this encoder emits, is modelled) followed by
`2*w` pixel bytes; leftover or missing bytes are an error. -/
def defilter (w : Nat) : Nat → List Nat → Option (List Nat)
  | 0, bs => if bs = [] then some [] else none
  | h + 1, bs =>
    match bs with
    | 0 :: rest =>
      if 2 * w ≤ rest.length then
        (defilter w h (rest.drop (2 * w))).map (fun tl => rest.take (2 * w) ++ tl)
      else none
    | _ => none

/-- The decoder: on success, the image's width, height and pixel bytes. -/
def decodePNG (methodBytes : List Nat) : Option (Nat × Nat × List Nat) :=
  if pngSig.isPrefixOf methodBytes then
    match parseChunk (methodBytes.drop 8) with
    | some (typ, ihdr, rest) =>
      if typ = tagIHDR ∧ ihdr.length = 13 ∧ ihdr.drop 8 = [16, 0, 0, 0, 0]
          ∧ 1 ≤ be32val (ihdr.take 4) ∧ 1 ≤ be32val ((ihdr.drop 4).take 4) then
        match parseIDATs rest with
        | some zdata =>
          match zlibDecode zdata with
          | some raw =>
            match defilter (be32val (ihdr.take 4)) (be32val ((ihdr.drop 4).take 4)) raw with
            | some pix => some (be32val (ihdr.take 4), be32val ((ihdr.drop 4).take 4), pix)
            | none => none
          | none => none
        | none => none
      else none
    | none => none
  else none

/-! ## Round-trip lemmas -/

theorem readN_some {k : Nat} {bs a b : List Nat} (h : readN k bs = some (a, b)) :
    a.length = k ∧ b.length + k = bs.length := by
  unfold readN at h
  split at h
  · rename_i hk
    injection h with h
    injection h with h1 h2
    subst h1 h2
    constructor
    · simp only [List.length_take]
      omega
    · simp only [List.length_drop]
      omega
  · cases h

theorem parseChunk_writeChunk (b typ rest : List Nat) (ht : typ.length = 4)
    (hb : b.length < 2 ^ 32) :
    parseChunk (writeChunk b typ ++ rest) = some (typ, b, rest) := by
  unfold parseChunk writeChunk
  simp only [List.append_assoc,
    readN_exact (be32_length b.length), readN_exact ht, be32val_be32_of_lt hb,
    readN_exact (rfl : b.length = b.length),
    readN_exact (be32_length (crc32 (typ ++ b))),
    be32val_be32_of_lt (crc32_lt (typ ++ b))]
  simp

theorem parseChunk_some_length {bs typ payload rest : List Nat}
    (h : parseChunk bs = some (typ, payload, rest)) :
    rest.length + 12 + payload.length = bs.length := by
  unfold parseChunk at h
  split at h
  · cases h
  · rename_i lenB r1 h1
    split at h
    · cases h
    · rename_i typ' r2 h2
      split at h
      · cases h
      · rename_i payload' r3 h3
        split at h
        · cases h
        · rename_i crcB r4 h4
          split at h
          · injection h with h
            injection h with ha h
            injection h with hb' hc'
            subst ha hb' hc'
            have k1 := readN_some h1
            have k2 := readN_some h2
            have k3 := readN_some h3
            have k4 := readN_some h4
            omega
          · cases h

/-- Two-chunk IDAT stream: one IDAT chunk followed by the IEND chunk. -/
theorem parseIDATs_pair {bs bs2 p q : List Nat}
    (h1 : parseChunk bs = some (tagIDAT, p, bs2))
    (h2 : parseChunk bs2 = some (tagIEND, q, [])) :
    parseIDATs bs = some p := by
  have l1 := parseChunk_some_length h1
  have l2 := parseChunk_some_length h2
  unfold parseIDATs
  obtain ⟨f, hf⟩ : ∃ f, bs.length + 1 = (f + 1) + 1 := ⟨bs.length - 1, by omega⟩
  rw [hf]
  simp only [parseIDATsF, h1, h2]
  simp [tagIDAT, tagIEND]

theorem le16val_bytes {n : Nat} (h : n < 65536) :
    le16val [n % 256, n % 65536 / 256] = n := by
  simp only [le16val]
  omega

theorem inflateF_storedBlocks :
    ∀ (fuel n : Nat) (c tail : List Nat), n < fuel → c.length = n →
      inflateF fuel (storedBlocks n c ++ (flateCloseBytes ++ tail)) = some (c, tail) := by
  intro fuel
  induction fuel with
  | zero => intro n c tail h _; omega
  | succ fuel ih =>
    intro n c tail hf hc
    by_cases hn : n = 0
    · subst hn
      have hcnil : c = [] := List.eq_nil_of_length_eq_zero hc
      subst hcnil
      rw [storedBlocks_zero, List.nil_append]
      simp only [flateCloseBytes, List.cons_append, List.nil_append, inflateF]
      rw [if_neg (by decide)]
      have e1 : (0 : Nat) :: 0 :: 255 :: 255 :: tail
          = [0, 0] ++ ([255, 255] ++ tail) := rfl
      rw [e1]
      simp only [readN_exact (show ([0, 0] : List Nat).length = 2 by rfl),
        readN_exact (show ([255, 255] : List Nat).length = 2 by rfl)]
      rw [if_neg (by decide)]
      have e2 : le16val [0, 0] = 0 := rfl
      rw [e2]
      have e3 : tail = [] ++ tail := rfl
      rw [e3, readN_exact (show ([] : List Nat).length = 0 by rfl)]
      simp
    · have h1 : 1 ≤ n := by omega
      rw [storedBlocks_pos n c h1]
      have hblk1 : 1 ≤ min 0xffff n := by omega
      have hblkn : min 0xffff n ≤ n := by omega
      have hblklt : min 0xffff n < 65536 := by omega
      simp only [hdr5, List.append_assoc, List.cons_append, List.nil_append, inflateF]
      rw [if_neg (by norm_num)]
      have e2 : (min 0xffff n % 256) :: (min 0xffff n % 65536 / 256)
            :: ((65535 - min 0xffff n % 65536) % 256)
            :: ((65535 - min 0xffff n % 65536) / 256)
            :: (c.take (min 0xffff n)
                ++ (storedBlocks (n - min 0xffff n) (c.drop (min 0xffff n))
                  ++ (flateCloseBytes ++ tail)))
          = [min 0xffff n % 256, min 0xffff n % 65536 / 256]
            ++ ([(65535 - min 0xffff n % 65536) % 256,
                 (65535 - min 0xffff n % 65536) / 256]
              ++ (c.take (min 0xffff n)
                ++ (storedBlocks (n - min 0xffff n) (c.drop (min 0xffff n))
                  ++ (flateCloseBytes ++ tail)))) := rfl
      rw [e2]
      simp only [
        readN_exact (show
          ([min 0xffff n % 256, min 0xffff n % 65536 / 256] : List Nat).length = 2 by rfl),
        readN_exact (show
          ([(65535 - min 0xffff n % 65536) % 256,
            (65535 - min 0xffff n % 65536) / 256] : List Nat).length = 2 by rfl)]
      rw [le16val_bytes hblklt,
        show le16val [(65535 - min 0xffff n % 65536) % 256,
            (65535 - min 0xffff n % 65536) / 256] = 65535 - min 0xffff n by
          simp only [le16val]; omega]
      rw [if_neg (by omega)]
      simp only [readN_exact (show (c.take (min 0xffff n)).length = min 0xffff n by
        simp only [List.length_take]; omega)]
      rw [if_neg (by omega)]
      simp only [ih (n - min 0xffff n) (c.drop (min 0xffff n)) tail (by omega)
        (by simp only [List.length_drop]; omega)]
      simp

theorem inflate_storedBlocks (n : Nat) (c tail : List Nat) (hc : c.length = n) :
    inflate (storedBlocks n c ++ (flateCloseBytes ++ tail)) = some (c, tail) := by
  unfold inflate
  apply inflateF_storedBlocks
  · rw [List.length_append, storedBlocks_length n c (by omega)]
    omega
  · exact hc

theorem zlibDecode_payload (n : Nat) (c : List Nat) (hc : c.length = n) :
    zlibDecode ([0x78, 0x01] ++ (storedBlocks n c ++ (flateCloseBytes ++ be32 (adler32 c))))
      = some c := by
  simp only [List.cons_append, List.nil_append, zlibDecode]
  rw [if_neg (by decide)]
  simp only [inflate_storedBlocks n c (be32 (adler32 c)) hc]
  rw [show be32 (adler32 c) = be32 (adler32 c) ++ [] from (List.append_nil _).symm]
  simp only [readN_exact (be32_length (adler32 c))]
  rw [be32val_be32_of_lt (adler32_lt c), if_pos (by exact ⟨by trivial, by trivial⟩)]

theorem contentWritesF_irrel :
    ∀ (f1 f2 stride : Nat) (pix : List Nat), pix.length < f1 → pix.length < f2 →
      1 ≤ stride → contentWritesF f1 stride pix = contentWritesF f2 stride pix := by
  intro f1
  induction f1 with
  | zero => intro f2 stride pix h1 _ _; omega
  | succ f1 ih =>
    intro f2 stride pix h1 h2 hs
    match pix with
    | [] => rw [contentWritesF_nil, contentWritesF_nil]
    | a :: l =>
      match f2, h2 with
      | g + 1, h2 =>
        rw [contentWritesF_cons f1 stride a l (by omega),
          contentWritesF_cons g stride a l (by omega),
          ih g stride ((a :: l).drop stride)
            (by simp only [List.length_drop]; simp at h1 ⊢; omega)
            (by simp only [List.length_drop]; simp at h2 ⊢; omega) hs]

theorem contentWrites_cons (stride : Nat) (a : Nat) (l : List Nat) (hs : 1 ≤ stride) :
    contentWrites stride (a :: l) =
      [0] :: (a :: l).take stride :: contentWrites stride ((a :: l).drop stride) := by
  unfold contentWrites
  rw [show (a :: l).length + 1 = l.length + 1 + 1 from by simp,
    contentWritesF_cons (l.length + 1) stride a l (by omega),
    contentWritesF_irrel (l.length + 1) (((a :: l).drop stride).length + 1) stride
      ((a :: l).drop stride)
      (by simp only [List.length_drop]; simp; omega)
      (by omega) hs]

theorem defilter_contentWrites (w : Nat) (hw : 1 ≤ w) :
    ∀ (h : Nat) (pix : List Nat), pix.length = 2 * w * h →
      defilter w h ((contentWrites (2 * w) pix).flatten) = some pix := by
  intro h
  induction h with
  | zero =>
    intro pix hlen
    have hpn : pix = [] := List.eq_nil_of_length_eq_zero (by omega)
    subst hpn
    rfl
  | succ h ih =>
    intro pix hlen
    have hp : pix ≠ [] := by
      intro hh
      subst hh
      simp at hlen
      omega
    match pix, hp with
    | a :: l, _ =>
      have hwle : 2 * w ≤ (a :: l).length := by rw [hlen]; nlinarith
      rw [contentWrites_cons (2 * w) a l (by omega)]
      rw [List.flatten_cons, List.flatten_cons]
      simp only [List.cons_append, List.nil_append, defilter]
      have htk : ((a :: l).take (2 * w)).length = 2 * w := by
        simp only [List.length_take]
        omega
      rw [if_pos (by rw [List.length_append, htk]; omega)]
      rw [List.take_left' htk, List.drop_left' htk]
      rw [ih ((a :: l).drop (2 * w))
        (by simp only [List.length_drop]; rw [hlen]; ring_nf; omega)]
      simp

theorem zlibDecode_idatPayload (im : Raster) (hs : 1 ≤ im.stride)
    (hlen : im.pix.length = im.stride * im.height) :
    zlibDecode (idatPayload im) = some (contentWrites im.stride im.pix).flatten := by
  simp only [idatPayload]
  rw [idat_flateRun im hs hlen]
  simp only [List.append_assoc]
  exact zlibDecode_payload (im.pix.length + im.height)
    (contentWrites im.stride im.pix).flatten
    (contentWrites_flatten_length im.stride im.height im.pix hs hlen)

theorem parseChunk_writeIDAT (im : Raster) (rest : List Nat)
    (hs : 1 ≤ im.stride) (hH : 1 ≤ im.height)
    (hlen : im.pix.length = im.stride * im.height)
    (hfit : 6 + deflateLen (im.pix.length + im.height) < 2 ^ 32) :
    parseChunk (writeIDAT im ++ rest) = some (tagIDAT, idatPayload im, rest) := by
  have hdecl := idatPayload_length im hs hH hlen
  have hX : be32val (be32 ((6 + deflateLen (im.pix.length + im.height) % 2 ^ 32) % 2 ^ 32))
      = (idatPayload im).length := by
    rw [be32val_be32, hdecl]
    omega
  unfold parseChunk writeIDAT
  simp only [List.append_assoc]
  simp only [readN_exact (be32_length ((6 + deflateLen (im.pix.length + im.height) % 2 ^ 32)
    % 2 ^ 32))]
  simp only [readN_exact (show tagIDAT.length = 4 by rfl)]
  rw [hX]
  simp only [readN_exact (show (idatPayload im).length = (idatPayload im).length from rfl)]
  simp only [readN_exact (be32_length (crc32 (tagIDAT ++ idatPayload im)))]
  rw [be32val_be32_of_lt (crc32_lt (tagIDAT ++ idatPayload im))]
  simp

theorem sig_isPrefixOf (rest : List Nat) : pngSig.isPrefixOf (pngSig ++ rest) = true := by
  simp [pngSig, List.isPrefixOf]

/-- Round-trip of the encoder against the modelled standard decoder, for
rasters whose stride is exactly `2 * width` (two bytes per 16-bit sample,
no padding) — the profile under which the IHDR-declared width matches the
serialized scanlines. -/
theorem png_roundtrip_raster (im : Raster)
    (hW : 1 ≤ im.width) (hH : 1 ≤ im.height)
    (hWlt : im.width < 2 ^ 32) (hHlt : im.height < 2 ^ 32)
    (hstride : im.stride = 2 * im.width)
    (hlen : im.pix.length = im.stride * im.height)
    (hfit : 6 + deflateLen (im.pix.length + im.height) < 2 ^ 32) :
    decodePNG (writePNG im) = some (im.width, im.height, im.pix) := by
  have hihdr13 : (ihdrPayload im).length = 13 := by
    simp [ihdrPayload, be32]
  have htake4 : (ihdrPayload im).take 4 = be32 im.width := by
    unfold ihdrPayload
    rw [List.append_assoc, List.take_left' (be32_length _)]
  have hdrop4 : ((ihdrPayload im).drop 4).take 4 = be32 im.height := by
    unfold ihdrPayload
    rw [List.append_assoc, List.drop_left' (be32_length _),
      List.take_left' (be32_length _)]
  have hdrop8 : (ihdrPayload im).drop 8 = [16, 0, 0, 0, 0] := by
    unfold ihdrPayload
    rw [List.drop_left' (by rw [List.length_append, be32_length, be32_length])]
  unfold writePNG decodePNG
  simp only [List.append_assoc]
  rw [if_pos (sig_isPrefixOf _)]
  rw [List.drop_left' (show pngSig.length = 8 from rfl)]
  simp only [parseChunk_writeChunk (ihdrPayload im) tagIHDR _
    (show tagIHDR.length = 4 from rfl) (by rw [hihdr13]; norm_num)]
  rw [if_pos (by
    refine ⟨by trivial, hihdr13, hdrop8, ?_, ?_⟩
    · rw [htake4, be32val_be32_of_lt hWlt]; exact hW
    · rw [hdrop4, be32val_be32_of_lt hHlt]; exact hH)]
  have h1 : parseChunk (writeIDAT im ++ writeChunk [] tagIEND)
      = some (tagIDAT, idatPayload im, writeChunk [] tagIEND) :=
    parseChunk_writeIDAT im _ (by omega) hH hlen hfit
  have h2 : parseChunk (writeChunk [] tagIEND) = some (tagIEND, [], []) := by
    rw [show writeChunk [] tagIEND = writeChunk [] tagIEND ++ [] from
      (List.append_nil _).symm]
    exact parseChunk_writeChunk [] tagIEND [] (show tagIEND.length = 4 from rfl)
      (by norm_num)
  simp only [parseIDATs_pair h1 h2]
  simp only [zlibDecode_idatPayload im (by omega) hlen]
  rw [htake4, hdrop4, be32val_be32_of_lt hWlt, be32val_be32_of_lt hHlt]
  rw [show contentWrites im.stride im.pix = contentWrites (2 * im.width) im.pix from by
    rw [hstride]]
  simp only [defilter_contentWrites im.width hW im.height im.pix
    (by rw [hlen, hstride])]

/-! ## Error propagation of the encode call (fallible sink)

`WritePNG` has no error result (`func WritePNG(out io.Writer, im *image.Gray16)`).
This second run of the encoder threads Go's error plumbing against a sink
whose write calls can fail (a failing write accepts nothing and returns
`n = 0`): `WritePNG`, `writeIDAT` and `writeChunk` discard the result of
every write they issue; `io.MultiWriter` stops before the trailing hash
writer when the first writer fails; `flateWriter.Write` returns early on a
failed header or data write, leaving its block accounting behind, and
`flateWriter.Close` then panics. `none` models a panic; a `some` result is
a normal return — the call's only outcome apart from a panic, since the
signature has no error channel. -/

structure SinkSt where
  sink : Nat → Bool
  calls : Nat
  out : List Nat
  fails : Nat

/-- One `out.Write(p)` call against the fallible sink. -/
def sinkWrite (s : SinkSt) (p : List Nat) : SinkSt × Nat × Bool :=
  if s.sink s.calls then
    ({ s with calls := s.calls + 1, out := s.out ++ p }, p.length, true)
  else
    ({ s with calls := s.calls + 1, fails := s.fails + 1 }, 0, false)

/-- State of `writeIDAT`'s writer stack: the sink, the bytes fed so far to
`chunkSum` (CRC-32) and to `zlibSum` (Adler-32), and the flate writer's
block accounting. -/
structure IdatSt where
  os : SinkSt
  chunkAcc : List Nat
  zlibAcc : List Nat
  block : Nat
  total : Nat

/-- `chunkContent := io.MultiWriter(out, chunkSum)`: on a failed sink write
`MultiWriter` returns before updating the hash. -/
def chunkContentWrite (s : IdatSt) (p : List Nat) : IdatSt × Nat × Bool :=
  let r := sinkWrite s.os p
  if r.2.2 then ({ s with os := r.1, chunkAcc := s.chunkAcc ++ p }, p.length, true)
  else ({ s with os := r.1 }, 0, false)

/-- Translation of `(*flateWriter).Write` over the fallible writer stack,
with its early returns on write errors. Fuel as in `flateWriteF`. -/
def fwWriteE : Nat → IdatSt → List Nat → IdatSt × Nat × Bool
  | 0, s, _ => (s, 0, false)
  | fuel + 1, s, p =>
    let hs :=
      if s.block = 0 then
        let blk := min 0xffff s.total
        let r := chunkContentWrite { s with block := blk, total := s.total - blk } (hdr5 blk)
        (r.1, r.2.2)
      else (s, true)
    if hs.2 = false then (hs.1, 0, false)
    else
      let s1 := hs.1
      if p.length ≤ s1.block then
        let r := chunkContentWrite s1 p
        ({ r.1 with block := r.1.block - r.2.1 }, r.2.1, r.2.2)
      else
        let x := s1.block
        let r := chunkContentWrite s1 (p.take x)
        let s2 := { r.1 with block := r.1.block - r.2.1 }
        if r.2.2 = false then (s2, r.2.1, false)
        else
          let r2 := fwWriteE fuel s2 (p.drop x)
          (r2.1, r.2.1 + r2.2.1, r2.2.2)

/-- `zlibContent := io.MultiWriter(&fw, zlibSum)`: the Adler sum sees the
bytes only when the flate write fully succeeded. -/
def zlibContentWrite (s : IdatSt) (p : List Nat) : IdatSt × Nat × Bool :=
  let r := fwWriteE (p.length + 1) s p
  if r.2.2 = false ∨ r.2.1 ≠ p.length then (r.1, r.2.1, false)
  else ({ r.1 with zlibAcc := r.1.zlibAcc ++ p }, p.length, true)

/-- The scanline loop's writes; `writeIDAT` ignores each call's result. -/
def flateRunE (s : IdatSt) : List (List Nat) → IdatSt
  | [] => s
  | p :: ps => flateRunE (zlibContentWrite s p).1 ps

/-- Translation of `writeIDAT` over the fallible sink; `none` is the
"wrote less than anticipated" panic in `fw.Close()`. -/
def writeIDATE (os : SinkSt) (im : Raster) : Option SinkSt :=
  let contentLen := im.pix.length + im.height
  let dflen := deflateLen contentLen % 2 ^ 32
  let os1 := (sinkWrite os (be32 ((6 + dflen) % 2 ^ 32))).1
  let s0 : IdatSt := ⟨os1, [], [], 0, contentLen⟩
  let s1 := (chunkContentWrite s0 tagIDAT).1
  let s2 := (chunkContentWrite s1 [0x78, 0x01]).1
  let s3 := flateRunE s2 (contentWrites im.stride im.pix)
  if s3.total = 0 ∧ s3.block = 0 then
    let s4 := (chunkContentWrite s3 flateCloseBytes).1
    let s5 := (chunkContentWrite s4 (be32 (adler32 s4.zlibAcc))).1
    some (sinkWrite s5.os (be32 (crc32 s5.chunkAcc))).1
  else none

/-- Translation of `writeChunk` over the fallible sink; `none` is the
`len(typ) != 4` panic (never fired by the three constant call sites). The
chunk CRC hashes only the bytes whose `MultiWriter` write reached it. -/
def writeChunkE (os : SinkSt) (b typ : List Nat) : Option SinkSt :=
  if typ.length = 4 then
    let os1 := (sinkWrite os (be32 b.length)).1
    let r1 := sinkWrite os1 typ
    let acc1 := if r1.2.2 then typ else []
    let r2 := sinkWrite r1.1 b
    let acc2 := acc1 ++ (if r2.2.2 then b else [])
    some (sinkWrite r2.1 (be32 (crc32 acc2))).1
  else none

/-- Translation of `WritePNG` over the fallible sink: a `some` result is a
normal (void) return; `none` a panic. No branch inspects a sink error. -/
def writePNGE (im : Raster) (sink : Nat → Bool) : Option SinkSt := do
  let os0 := (sinkWrite ⟨sink, 0, [], 0⟩ pngSig).1
  let os1 ← writeChunkE os0 (ihdrPayload im) tagIHDR
  let os2 ← writeIDATE os1 im
  writeChunkE os2 [] tagIEND

/-! ## Claim theorems -/

set_option maxRecDepth 100000

/-- C1 (amended: the stride is two bytes per pixel, `stride = 2*W`; for a
larger stride the encoder serializes `stride`-byte scanlines against an
IHDR that declares only `W`, and decoding fails — see the counterexample).
For every Raster with dimensions W×H (W, H ≥ 1, fitting in 32 bits, with
`len(pixels) = stride * height` and the IDAT record length representable),
decoding the byte stream produced by `WritePNG` with a standard PNG decoder
yields a grayscale-16 image with the same width, the same height and
byte-identical pixel content. -/
theorem png_roundtrip (W H stride : Nat) (pix : List Nat)
    (hW : 1 ≤ W) (hH : 1 ≤ H) (hWlt : W < 2 ^ 32) (hHlt : H < 2 ^ 32)
    (hstride : stride = 2 * W) (hlen : pix.length = stride * H)
    (hfit : 6 + deflateLen (pix.length + H) < 2 ^ 32) :
    decodePNG (writePNG ⟨W, H, stride, pix⟩) = some (W, H, pix) :=
  png_roundtrip_raster ⟨W, H, stride, pix⟩ hW hH hWlt hHlt hstride hlen hfit

/-- C1 witness: a concrete 1×1 raster round-trips. -/
theorem png_roundtrip_witness :
    decodePNG (writePNG ⟨1, 1, 2, [7, 9]⟩) = some (1, 1, [7, 9]) :=
  png_roundtrip 1 1 2 [7, 9] (by decide) (by decide) (by decide) (by decide)
    rfl (by decide) (by decide)

/-- C1 counterexample: the claim as frozen quantifies over every stride with
`len(pixels) = stride * height`; the 1×1 raster with stride 4 satisfies all
of its premises, yet the produced stream does not decode (the deflate
stream carries 4 bytes per scanline while the header promises 2 —
"too much pixel data"), so no image with identical dimensions and pixels is
obtained. -/
theorem png_roundtrip_cex :
    ((⟨1, 1, 4, [1, 2, 3, 4]⟩ : Raster).pix.length
      = (⟨1, 1, 4, [1, 2, 3, 4]⟩ : Raster).stride
        * (⟨1, 1, 4, [1, 2, 3, 4]⟩ : Raster).height) ∧
    decodePNG (writePNG ⟨1, 1, 4, [1, 2, 3, 4]⟩) = none := by decide

/-- C2 (amended: `n = 0` removed from the checked values — there
`deflateLen 0 = 10` while the spec's formula gives 5, and an empty raster's
record declares 16 payload bytes while 11 are written; the remaining listed
values 1, 65535, 65536, 131072 satisfy the formula, see the witness). For
every raster with positive stride and height and `len(pix) = stride*height`
whose record length is representable, the declared 4-byte big-endian length
of the IDAT record equals `6 + deflateLen(len(pix) + H)`, where
`deflateLen(n) = n + (1 + ceil(n/65535)) * 5` for every `n ≥ 1`, and this
declared length equals the number of payload bytes actually written for the
record (zlib header, stored blocks with their 5-byte headers, final empty
block, Adler-32 trailer). -/
theorem idat_declared_length (im : Raster) (hs : 1 ≤ im.stride) (hH : 1 ≤ im.height)
    (hlen : im.pix.length = im.stride * im.height)
    (hfit : 6 + deflateLen (im.pix.length + im.height) < 2 ^ 32) :
    (∀ n, 1 ≤ n → deflateLen n = n + (1 + (n + 65534) / 65535) * 5) ∧
    be32val ((writeIDAT im).take 4) = 6 + deflateLen (im.pix.length + im.height) ∧
    (idatPayload im).length = 6 + deflateLen (im.pix.length + im.height) :=
  ⟨fun n hn => (deflateLen_eq_spec n hn).trans rfl,
   writeIDAT_declared im hfit, idatPayload_length im hs hH hlen⟩

/-- C2 witness: the invariant at a concrete 1×1 raster, and the formula at
the listed values 1, 65535, 65536, 131072. -/
theorem idat_declared_length_witness :
    be32val ((writeIDAT ⟨1, 1, 2, [0, 0]⟩).take 4) = 6 + deflateLen 3 ∧
    (idatPayload ⟨1, 1, 2, [0, 0]⟩).length = 6 + deflateLen 3 ∧
    deflateLen 1 = 1 + (1 + (1 + 65534) / 65535) * 5 ∧
    deflateLen 65535 = 65535 + (1 + (65535 + 65534) / 65535) * 5 ∧
    deflateLen 65536 = 65536 + (1 + (65536 + 65534) / 65535) * 5 ∧
    deflateLen 131072 = 131072 + (1 + (131072 + 65534) / 65535) * 5 :=
  have h := idat_declared_length ⟨1, 1, 2, [0, 0]⟩ (by decide) (by decide)
    (by decide) (by decide)
  ⟨h.2.1, h.2.2, h.1 1 (by decide), h.1 65535 (by decide),
   h.1 65536 (by decide), h.1 131072 (by decide)⟩

/-- C2 counterexample: at the listed value `n = 0` the code's `deflateLen`
gives 10 while the claimed formula gives 5, and on the empty raster
(`contentLen = 0`) the record declares 16 payload bytes while only 11 are
actually written. -/
theorem idat_declared_length_cex :
    deflateLen 0 = 10 ∧ 0 + (1 + (0 + 65534) / 65535) * 5 = 5 ∧
    be32val ((writeIDAT ⟨0, 0, 2, []⟩).take 4) = 16 ∧
    (idatPayload ⟨0, 0, 2, []⟩).length = 11 := by decide

/-- C3 (amended: the hash value `A` must be nonzero — a fresh detector
stores `h1 = h2 = 0`, so a first frame hashing to 0 is classified "skip"
immediately, see the counterexample and claim C10). The skip operation
returns true iff the new frame's FNV-1a hash equals both stored hashes, and
otherwise shifts its two-slot history and returns false; feeding a fresh
detector frames with hash sequence `[A, A, A, B]` (`A ≠ 0`, `B ≠ A`) yields
`[false, false, true, false]`, and `[A, B, A, B]` yields
`[false, false, false, false]`. -/
theorem deduper_hysteresis (A B : Nat) (a1 a2 a3 b4 : List Nat)
    (hA0 : A ≠ 0) (hAB : A ≠ B)
    (h1 : fnv32a a1 = A) (h2 : fnv32a a2 = A) (h3 : fnv32a a3 = A)
    (h4 : fnv32a b4 = B) :
    (∀ (d : Deduper) (b : List Nat),
      ((d.skip b).1 = true ↔ (fnv32a b = d.h1 ∧ fnv32a b = d.h2)) ∧
      ((d.skip b).1 = false → (d.skip b).2 = ⟨d.h2, fnv32a b⟩)) ∧
    Deduper.fresh.skipRun [a1, a2, a3, b4] = [false, false, true, false] ∧
    Deduper.fresh.skipRun [a1, b4, a3, b4] = [false, false, false, false] := by
  have hBA : B ≠ A := Ne.symm hAB
  refine ⟨fun d b => ⟨?_, ?_⟩, ?_, ?_⟩
  · simp only [Deduper.skip]
    split
    · rename_i hc; exact iff_of_true rfl hc
    · rename_i hc; exact iff_of_false (by simp) hc
  · simp only [Deduper.skip]
    split
    · simp
    · intro _; rfl
  · simp [Deduper.skipRun, Deduper.skip, Deduper.fresh, h1, h2, h3, h4, hA0, hAB, hBA]
  · simp [Deduper.skipRun, Deduper.skip, Deduper.fresh, h1, h2, h3, h4, hA0, hAB, hBA]

/-- C3 witness: concrete frames `[1]` (hash ≠ 0) and `[2]`. -/
theorem deduper_hysteresis_witness :
    Deduper.fresh.skipRun [[1], [1], [1], [2]] = [false, false, true, false] ∧
    Deduper.fresh.skipRun [[1], [2], [1], [2]] = [false, false, false, false] :=
  have h := deduper_hysteresis (fnv32a [1]) (fnv32a [2]) [1] [1] [1] [2]
    (by decide) (by decide) rfl rfl rfl rfl
  ⟨h.2.1, h.2.2⟩

/-- C3 counterexample: the byte string `cc 24 31 c4 00` has FNV-1a
hash 0, so feeding it three times followed by a different frame — a hash
sequence of the claimed shape `[A, A, A, B]` — yields
`[true, true, true, false]`, not `[false, false, true, false]`. -/
theorem deduper_hysteresis_cex :
    fnv32a [204, 36, 49, 196, 0] = 0 ∧
    fnv32a [204, 36, 49, 196, 0] ≠ fnv32a [1] ∧
    Deduper.fresh.skipRun [[204, 36, 49, 196, 0], [204, 36, 49, 196, 0],
      [204, 36, 49, 196, 0], [1]] ≠ [false, false, true, false] := by decide

/-- C4: the raw-protocol reader rejects a header whose version is not 1
with a version-mismatch error, and a version-1 header whose bitsPerPixel is
not 16 with a depth-mismatch error; in both cases `readHdr` produces an
error and never the width/height needed to proceed to streaming frames.
(The Go error message for the version case formats `hdr.BitsPerPixel` —
a formatting slip in the source — which the error value records.) -/
theorem readHdr_rejects (body : List Nat) (hdr : RawHeader)
    (hdec : decodeRawHeader body = some hdr) :
    (hdr.version ≠ 1 →
      readHdr ("binary/octet-stream") body = .error (.badVersion hdr.bitsPerPixel)) ∧
    (hdr.version = 1 → hdr.bitsPerPixel ≠ 16 →
      readHdr ("binary/octet-stream") body = .error (.badDepth hdr.bitsPerPixel)) := by
  unfold readHdr protocolVersion
  rw [if_neg (by simp)]
  simp only [hdec]
  constructor
  · intro hv
    rw [if_pos hv]
  · intro hv hbpp
    rw [if_neg (by simp [hv]), if_pos hbpp]

/-- C4 witness: a header with version 2 is rejected as a version mismatch;
a header with bitsPerPixel 8 as a depth mismatch. -/
theorem readHdr_rejects_witness :
    readHdr ("binary/octet-stream") (encodeRawHeader ⟨2, 16, 0, 4, 4⟩)
      = .error (.badVersion 16) ∧
    readHdr ("binary/octet-stream") (encodeRawHeader ⟨1, 8, 0, 4, 4⟩)
      = .error (.badDepth 8) :=
  ⟨(readHdr_rejects (encodeRawHeader ⟨2, 16, 0, 4, 4⟩) ⟨2, 16, 0, 4, 4⟩
      (by decide)).1 (by decide),
   (readHdr_rejects (encodeRawHeader ⟨1, 8, 0, 4, 4⟩) ⟨1, 8, 0, 4, 4⟩
      (by decide)).2 rfl (by decide)⟩

/-- C5: whenever a frame part carries fewer than `width*height*2` bytes,
`readImage` returns an error — never a partially filled frame as success;
with the expected content type the error is the short-frame read failure. -/
theorem readImage_short (w h : Nat) (ct : String) (body : List Nat)
    (hshort : body.length < w * h * 2) :
    (∃ e, readImage w h ct body = .error e) ∧
    readImage w h ("binary/octet-stream") body = .error .shortFrame := by
  constructor
  · unfold readImage
    by_cases hct : ct = "binary/octet-stream"
    · exact ⟨.shortFrame, by rw [if_neg (by simp [hct]), if_pos hshort]⟩
    · exact ⟨.badPartType ct, by rw [if_pos hct]⟩
  · unfold readImage
    rw [if_neg (by simp), if_pos hshort]

/-- C5 witness: width 4, height 4, a part of 30 of the expected 32 bytes. -/
theorem readImage_short_witness :
    (∃ e, readImage 4 4 ("binary/octet-stream") (List.replicate 30 0) = .error e) ∧
    readImage 4 4 ("binary/octet-stream") (List.replicate 30 0)
      = .error .shortFrame :=
  readImage_short 4 4 "binary/octet-stream" (List.replicate 30 0) (by decide)

/-- C6: when the underlying accept fails with a timeout while the active
count is zero, `Accept` returns the distinguished `errIdle`, which `run`
treats as clean shutdown (`none`) and not as a failure; every non-timeout
accept error is returned unchanged and surfaces from `run`. -/
theorem accept_idle (l : LState) (_h0 : l.active = 0) :
    (acceptStep l .timeout).1 = .error .idle ∧
    runResult .idle = none ∧
    (∀ (l' : LState) (e : Nat),
      (acceptStep l' (.failure e)).1 = .error (.failure e) ∧
      runResult (.failure e) = some e) :=
  ⟨rfl, rfl, fun _ _ => ⟨rfl, rfl⟩⟩

/-- C6 witness: the idle listener state with no active connections. -/
theorem accept_idle_witness :
    (acceptStep ⟨0, false⟩ .timeout).1 = .error .idle ∧
    runResult .idle = none ∧
    (∀ (l' : LState) (e : Nat),
      (acceptStep l' (.failure e)).1 = .error (.failure e) ∧
      runResult (.failure e) = some e) :=
  accept_idle ⟨0, false⟩ rfl

/-- C7: the close hook's effect — decrementing the active count and, when
it reaches zero, reinstating the idle deadline — executes at most once: any
number `n ≥ 1` of `Close` invocations on a wrapped connection leaves the
same state as a single one. -/
theorem close_once (n : Nat) (hn : 1 ≤ n) (l : LState) :
    closeN n (⟨false⟩, l) = closeStep (⟨false⟩, l) := by
  obtain ⟨m, rfl⟩ : ∃ m, n = m + 1 := ⟨n - 1, by omega⟩
  show closeN m (closeStep (⟨false⟩, l)) = closeStep (⟨false⟩, l)
  have hstep : closeStep (⟨false⟩, l)
      = (⟨true⟩, { active := (l.active + (2 ^ 32 - 1)) % 2 ^ 32,
                   deadlineSet := if (l.active + (2 ^ 32 - 1)) % 2 ^ 32 = 0 then true
                     else l.deadlineSet }) := by
    simp [closeStep]
  rw [hstep, closeN_done]

/-- C7 witness: closing three times equals closing once. -/
theorem close_once_witness :
    closeN 3 (⟨false⟩, ⟨2, false⟩) = closeStep (⟨false⟩, ⟨2, false⟩) :=
  close_once 3 (by decide) ⟨2, false⟩

/-- C8 (amended: `WritePNG` has no error result, so sink write failures are
never reported to the caller; given a well-formed Raster the encoder's only
internal failure mode — the close-time length panic — cannot fire when
every sink write succeeds, and a run against a sink whose write fails still
returns normally, with the failure swallowed and the output silently
truncated). -/
theorem writePNG_error_model (im : Raster) (hs : 1 ≤ im.stride)
    (hlen : im.pix.length = im.stride * im.height) :
    writePNGPanics im = false ∧
    (writePNGE ⟨1, 1, 2, [7, 9]⟩ (fun i => decide (0 < i))).map
      (fun s => (s.fails, s.out == writePNG ⟨1, 1, 2, [7, 9]⟩)) = some (1, false) := by
  constructor
  · unfold writePNGPanics
    rw [idat_flateRun im hs hlen]
    rfl
  · decide

/-- C8 witness: the pure invariant at a concrete 1×1 raster. -/
theorem writePNG_error_model_witness :
    writePNGPanics ⟨1, 1, 2, [7, 9]⟩ = false ∧
    (writePNGE ⟨1, 1, 2, [7, 9]⟩ (fun i => decide (0 < i))).map
      (fun s => (s.fails, s.out == writePNG ⟨1, 1, 2, [7, 9]⟩)) = some (1, false) :=
  writePNG_error_model ⟨1, 1, 2, [7, 9]⟩ (by decide) (by decide)

/-- C8 counterexample: against a sink whose very first write fails, the
encode call completes normally — it does not panic and, having no error
result, reports nothing to its caller — while exactly one sink write failed
and the produced bytes are not the intended container. The claim's
"reports a write error to its caller exactly when the sink's write fails"
is therefore false. -/
theorem writePNG_error_model_cex :
    (writePNGE ⟨1, 1, 2, [7, 9]⟩ (fun i => decide (0 < i))).isSome = true ∧
    (writePNGE ⟨1, 1, 2, [7, 9]⟩ (fun i => decide (0 < i))).map (fun s => s.fails)
      = some 1 ∧
    (writePNGE ⟨1, 1, 2, [7, 9]⟩ (fun i => decide (0 < i))).map (fun s => s.out)
      ≠ some (writePNG ⟨1, 1, 2, [7, 9]⟩) := by decide

/-- C9: encoding the raw header `{version 1, bitsPerPixel 16, width 1404,
height 1872}` big-endian and decoding it on the reader side yields the same
field values. -/
theorem rawHeader_roundtrip :
    decodeRawHeader (encodeRawHeader ⟨1, 16, 0, 1404, 1872⟩)
      = some ⟨1, 16, 0, 1404, 1872⟩ := by decide

/-- C10: a fresh detector stores `h1 = h2 = 0`, so any first frame whose
FNV-1a hash is 0 is classified "skip" immediately, although no two
identical preceding frames were observed. -/
theorem deduper_fresh_zero (b : List Nat) (h : fnv32a b = 0) :
    Deduper.fresh.h1 = 0 ∧ Deduper.fresh.h2 = 0 ∧
    (Deduper.fresh.skip b).1 = true := by
  refine ⟨rfl, rfl, ?_⟩
  simp [Deduper.skip, Deduper.fresh, h]

/-- C10 witness: the byte string `cc 24 31 c4 00` hashes to 0 and is
skipped by a fresh detector. -/
theorem deduper_fresh_zero_witness :
    Deduper.fresh.h1 = 0 ∧ Deduper.fresh.h2 = 0 ∧
    (Deduper.fresh.skip [204, 36, 49, 196, 0]).1 = true :=
  deduper_fresh_zero [204, 36, 49, 196, 0] (by decide)

end Srvfb

